import Mathlib

/-!
The package anim1d: curves, frame interpolation and the serialised value
container.

A shallow embedding of `curve.go` and `serializer_values.go`.

Conventions.
* `uint16` values are `Nat`; where Go arithmetic wraps (`v*2`, `65535 - x` in
  `Bell.Scale`) the reduction `% 65536` is written out.
* Go `int` indices and lengths are `Nat`; index products are taken without
  wrap-around.
* A Go panic (slice index out of range) is `none`.
* Frames passed to `Interpolation.Scale` are separate values: the input frame
  is the frame as it was before the call.
-/

namespace Anim1d

/-! ## The external package `fastbezier` -/

/-- The part of the third-party package `github.com/maruel/fastbezier` that
`curve.go` uses: the table type `LUT`, its zero value, the constructor `Make`
(control points as the decimal literals of the source, and the number of
steps) and the reader `Eval`, which maps a `uint16` to a `uint16`. The package
is not part of the repository, so it is a parameter of the embedding. -/
structure Fastbezier where
  LUT : Type
  nilLUT : LUT
  Make : ℚ → ℚ → ℚ → ℚ → Nat → LUT
  Eval : LUT → Nat → Nat
  Eval_le : ∀ l x, Eval l x ≤ 65535

/-! ## Curve -/

/-- Go: `type Curve string`. -/
abbrev Curve := String

def Ease : Curve := "ease"
def EaseIn : Curve := "ease-in"
def EaseInOut : Curve := "ease-in-out"
def EaseOut : Curve := "ease-out"
def Direct : Curve := "direct"
def StepStart : Curve := "steps(1,start)"
def StepMiddle : Curve := "steps(1,middle)"
def StepEnd : Curve := "steps(1,end)"

/-- Go map `map[Curve]V` as an association list; the first entry of a key is
the live one. -/
abbrev CurveMap (V : Type) := List (Curve × V)

/-- Go `m[k]`: the stored value, or the zero value of `V` for an absent key. -/
def CurveMap.get {V : Type} (zero : V) (m : CurveMap V) (k : Curve) : V :=
  (m.lookup k).getD zero

/-- Go `m[k] = v`. -/
def CurveMap.set {V : Type} (m : CurveMap V) (k : Curve) (v : V) : CurveMap V :=
  (k, v) :: m.filter (fun e => e.1 != k)

/-- Go `setupCache`: the four bezier tables, and the ease-out table once more
under the empty tag. -/
def setupCache (fb : Fastbezier) : CurveMap fb.LUT :=
  let cache : CurveMap fb.LUT :=
    [ (Ease, fb.Make 0.25 0.1 0.25 1 18),
      (EaseIn, fb.Make 0.42 0 1 1 18),
      (EaseInOut, fb.Make 0.42 0 0.58 1 18),
      (EaseOut, fb.Make 0 0 0.58 1 18) ]
  cache.set "" (cache.get fb.nilLUT EaseOut)

/-- Go `lutCache`, assigned once by `init`. -/
def lutCache (fb : Fastbezier) : CurveMap fb.LUT := setupCache fb

/-- Go `Curve.Scale`. -/
def Curve.Scale (fb : Fastbezier) (c : Curve) (intensity : Nat) : Nat :=
  if c = Ease ∨ c = EaseIn ∨ c = EaseInOut ∨ c = EaseOut ∨ c = "" then
    fb.Eval ((lutCache fb).get fb.nilLUT c) intensity
  else if c = Direct then
    intensity
  else if c = StepStart then
    if intensity < 256 then 0 else 65535
  else if c = StepMiddle then
    if intensity < 32768 then 0 else 65535
  else if c = StepEnd then
    if intensity ≥ 65535 - 256 then 65535 else 0
  else
    fb.Eval ((lutCache fb).get fb.nilLUT "") intensity

/-- Go `Curve.Scale8`: `uint8(c.Scale(intensity) >> 8)`. -/
def Curve.Scale8 (fb : Fastbezier) (c : Curve) (intensity : Nat) : Nat :=
  (Curve.Scale fb c intensity >>> 8) % 256

/-- Go `Bell.Scale`; `v * 2` and `65535 - v*2` are `uint16` operations. -/
def Bell.Scale (fb : Fastbezier) (v : Nat) : Nat :=
  if v = 0 then 0
  else if v = 65535 then 0
  else if v = 32767 then 65535
  else if v < 32767 then Curve.Scale fb EaseInOut (v * 2 % 65536)
  else Curve.Scale fb EaseInOut ((65535 + 65536 - v * 2 % 65536) % 65536)

/-- A table set used to run the definitions on concrete inputs: every table
is the same piecewise-linear ramp through the points that `values_test.go`
fixes for ease-in-out, `(0,0)`, `(8192,2093)`, `(8193,2093)`, `(32767,32766)`
and `(65535,65535)`. -/
def rampTables : Fastbezier where
  LUT := Unit
  nilLUT := ()
  Make := fun _ _ _ _ _ => ()
  Eval := fun _ x =>
    if x < 8192 then x * 2093 / 8192
    else if x ≤ 8193 then 2093
    else if x ≤ 32767 then 2093 + (x - 8193) * 30673 / 24574
    else min 65535 (32766 + (x - 32767) * 32769 / 32768)
  Eval_le := by
    intro _ x
    dsimp only
    split_ifs <;> omega

/-! ## Interpolation -/

/-- Go: `type Interpolation string`. -/
abbrev Interpolation := String

def NearestSkip : Interpolation := "nearestskip"
def Nearest : Interpolation := "nearest"
def Linear : Interpolation := "linear"

/-- Go: `type Frame []Color`. The colour type is declared outside the given
sources and is a type parameter here. -/
abbrev Frame (Color : Type) := List Color

/-- Go `out[k] = p`: a panic when `k` is out of range. -/
def Frame.store {Color : Type} (out : Frame Color) (k : Nat) (p : Color) :
    Option (Frame Color) :=
  if k < out.length then some (out.set k p) else none

/-- The loop `for i, p := range in { out[(i*lo+lo/2)/li] = p }` of the
`NearestSkip` case, started at index `i` with the samples still to visit. -/
def skipLoop {Color : Type} (li lo : Nat) :
    Nat → List Color → Frame Color → Option (Frame Color)
  | _, [], out => some out
  | i, p :: rest, out =>
    (Frame.store out ((i * lo + lo / 2) / li) p).bind (skipLoop li lo (i + 1) rest)

/-- The loop `for i := range out { out[i] = in[(i*li+li/2)/lo] }`: `n`
iterations are left and the next index is `i`. -/
def nearestLoop {Color : Type} (inF : Frame Color) (li lo : Nat) :
    Nat → Nat → Frame Color → Option (Frame Color)
  | 0, _, out => some out
  | n + 1, i, out =>
    (inF[(i * li + li / 2) / lo]?).bind fun c =>
      (Frame.store out i c).bind (nearestLoop inF li lo n (i + 1))

/-- The loop of the `Linear` case. `Mix` is the method `Color.Mix` (declared
outside the given sources): `Mix c d g` is the value of `c` after
`c.Mix(d, g)`. -/
def linearLoop {Color : Type} (Mix : Color → Color → Nat → Color)
    (inF : Frame Color) (li lo : Nat) :
    Nat → Nat → Frame Color → Option (Frame Color)
  | 0, _, out => some out
  | n + 1, i, out =>
    let x := (i * li + li / 2) / lo
    (inF[x]?).bind fun c =>
      (if x < li - 1 then (inF[x + 1]?).map fun d => Mix c d 127 else some c).bind fun c1 =>
        (Frame.store out i c1).bind (linearLoop Mix inF li lo n (i + 1))

/-- Go `Interpolation.Scale(in, out)`: the frame `out` after the call, or
`none` for a panic. -/
def Interpolation.Scale {Color : Type} (Mix : Color → Color → Nat → Color)
    (i : Interpolation) (inF out : Frame Color) : Option (Frame Color) :=
  let li := inF.length
  let lo := out.length
  if li = 0 ∨ lo = 0 then some out
  else if i = NearestSkip then
    if li < lo then skipLoop li lo 0 inF out
    else nearestLoop inF li lo lo 0 out
  else if i = Linear then linearLoop Mix inF li lo lo 0 out
  else nearestLoop inF li lo lo 0 out

/-! ## Values and the serialised container -/

/-- Go `error` values carry a message. -/
abbrev Error := String

/-- Modelled from the spec: the interface `Value` (its declaration is not in
the given sources), an evaluator `Eval(timeMS uint32, l int) int32`. -/
structure Value where
  Eval : Nat → Int → Int

/-- Modelled from the spec: the variant `Const` (its declaration is not in the
given sources), which "returns `value` unconditionally". -/
def Const (value : Int) : Value := ⟨fun _ _ => value⟩

/-- Go `Type`, the encoding kind of a variant (`Int`, `Str`, `Dict`); the
declaration is not in the given sources. -/
inductive Kind where
  | Int
  | Str
  | Dict
  deriving DecidableEq, Repr

/-- Go `reflect.Type`, identified by the type name. -/
abbrev ReflectType := String

/-- The package variables `valuesTable` and `valuesDictLookup`. -/
structure Registry where
  valuesTable : Kind → List ReflectType
  valuesDictLookup : List (String × ReflectType)

/-- The identifiers that `serializer_values.go` uses and that are declared
outside the given sources: the four JSON helpers, and the identifier `c` that
the string branch of `UnmarshalJSON` reads (`Const(c)`) although no `c` is
bound there. `jsonUnmarshalWithType` includes the conversion `o.(Value)`. -/
structure Package where
  jsonUnmarshalInt32 : String → Except Error Int
  jsonUnmarshalString : String → Except Error String
  jsonUnmarshalWithType : String → List (String × ReflectType) → Except Error Value
  jsonMarshalWithType : Value → Except Error String
  c : Int

/-- Go `SValue`: an embedded `Value`, which may be nil. -/
structure SValue where
  Value : Option Anim1d.Value

/-- Go `SValue.Eval`. -/
def SValue.Eval (s : SValue) (timeMS : Nat) (l : Int) : Int :=
  match s.Value with
  | none => 0
  | some v => v.Eval timeMS l

/-- Go `SValue.UnmarshalJSON`: the container after the call and the returned
`error` (`none` is nil). Each `for ... range` loop runs its assignment once
per entry of the table. The statement `i` in the first loop has no effect,
and the message of the first `fmt.Errorf` is kept without its argument `v`,
which is not bound at that line. -/
def SValue.UnmarshalJSON (pkg : Package) (reg : Registry) (s : SValue) (b : String) :
    SValue × Option Error :=
  match pkg.jsonUnmarshalInt32 b with
  | .ok c =>
    let s1 := (reg.valuesTable Kind.Int).foldl (fun _ _ => SValue.mk (some (Const c))) s
    (s1, some "unknown value")
  | .error _ =>
    match pkg.jsonUnmarshalString b with
    | .ok v =>
      let s1 := (reg.valuesTable Kind.Str).foldl (fun _ _ => SValue.mk (some (Const pkg.c))) s
      (s1, some ("unknown value " ++ v.quote))
    | .error _ =>
      match pkg.jsonUnmarshalWithType b reg.valuesDictLookup with
      | .error err => (s, some err)
      | .ok o => (SValue.mk (some o), none)

/-- Go `SValue.MarshalJSON`. -/
def SValue.MarshalJSON (pkg : Package) (s : SValue) : Except Error String :=
  match s.Value with
  | none => .ok "0"
  | some v => pkg.jsonMarshalWithType v

/-- Value of a run of decimal digits, most significant first. -/
def digitsValue : List Char → Nat → Option Nat
  | [], acc => some acc
  | d :: ds, acc => if d.isDigit then digitsValue ds (acc * 10 + (d.toNat - 48)) else none

/-- Modelled from the spec: `jsonUnmarshalInt32` (not in the given sources),
"parse as a bare integer literal": an optional minus sign and decimal digits,
within the range of `int32`. -/
def parseInt32 (b : String) : Except Error Int :=
  let signed : Option Int :=
    match b.data with
    | [] => none
    | '-' :: [] => none
    | '-' :: ds => (digitsValue ds 0).map fun n => - (n : Int)
    | ds => (digitsValue ds 0).map fun n => (n : Int)
  match signed with
  | some n => if -2147483648 ≤ n ∧ n ≤ 2147483647 then .ok n else .error "out of range"
  | none => .error "not an integer"

/-- Modelled from the spec: `jsonUnmarshalString` (not in the given sources),
"parse as a bare string literal": text between two double quotes (escapes are
left out). -/
def parseString (b : String) : Except Error String :=
  match b.data with
  | '"' :: rest =>
    match rest.reverse with
    | '"' :: body => if '"' ∈ body then .error "not a string" else .ok (String.mk body.reverse)
    | _ => .error "not a string"
  | _ => .error "not a string"

/-- A package instance used to run the container on concrete payloads: the
two literal parsers above, no structured variant known, and `Const` values
written as their integer. -/
def litPackage : Package where
  jsonUnmarshalInt32 := parseInt32
  jsonUnmarshalString := parseString
  jsonUnmarshalWithType := fun _ _ => .error "unknown type"
  jsonMarshalWithType := fun v => .ok (toString (v.Eval 0 0))
  c := 0

/-- A registry in which `Const` is registered as the one numeric-kind
variant. -/
def constRegistry : Registry where
  valuesTable := fun k => match k with
    | Kind.Int => ["Const"]
    | _ => []
  valuesDictLookup := []

/-- A registry with no variant registered. -/
def emptyRegistry : Registry where
  valuesTable := fun _ => []
  valuesDictLookup := []

/-! ## Registration -/

/-- What `RegisterValue` inspects in its argument `v`: the value itself and
the outcome of the type assertion `v.(JsonEncoding)` (`some ty` with `ty` the
result of `Type()` when the dynamic type implements the interface, `none`
when it does not). The interface `JsonEncoding` is declared outside the given
sources. -/
structure Registrant where
  value : Value
  jsonEncoding : Option Kind

/-- The package variables `valuesDictLookup` and `valuesTable` as Go maps, for
a function that writes them. `none` is the nil map: the value that the
declarations of lines 80 and 81 (`var ... map[...]...`, no initialiser) give
them and that no line of the given sources changes. A write to a nil map is a
panic. -/
structure Tables where
  valuesDictLookup : Option (List (String × ReflectType))
  valuesTable : Option (Kind → List ReflectType)

/-- The package variables as lines 80 and 81 declare them. -/
def declaredTables : Tables := Tables.mk none none

/-- How a call of `RegisterValue` ends: at a `return` statement with the
returned `error` (`none` is nil), in a panic, or at the end of the body, where
the source has no `return` statement. -/
inductive Outcome where
  | returned (vars : Tables) (err : Option Error)
  | panicked
  | noReturn (vars : Tables)

/-- The two expressions of `RegisterValue` whose value the source text does
not fix: `r`, the value of `reflect.TypeOf(i).Elem()` (no `i` is bound), and
`appended`, the value of `append(valuesTable, r)` (an append to the map, not
to a slice). -/
structure Unbound where
  r : ReflectType
  appended : List ReflectType

/-- Go `RegisterValue`, statement by statement: the failed assertion returns
the error; after a successful assertion line 21 writes `valuesTable[ty]`,
line 23 writes `valuesDictLookup[r.Name()]` when `ty == Dict` (a reflect type
is identified by its name), and the body ends without a `return`. -/
def RegisterValue (u : Unbound) (vars : Tables) (v : Registrant) : Outcome :=
  match v.jsonEncoding with
  | none => Outcome.returned vars (some "implementing JsonEncoding is required")
  | some ty =>
    match vars.valuesTable with
    | none => Outcome.panicked
    | some table =>
      let table1 : Kind → List ReflectType := fun k => if k = ty then u.appended else table k
      if ty = Kind.Dict then
        match vars.valuesDictLookup with
        | none => Outcome.panicked
        | some dict =>
          Outcome.noReturn
            (Tables.mk (some ((u.r, u.r) :: dict.filter (fun e => e.1 != u.r))) (some table1))
      else
        Outcome.noReturn (Tables.mk vars.valuesDictLookup (some table1))

/-- The property the spec gives to the curve tables ("a monotonically
non-decreasing lookup table over the domain `[0,65535]`"), for every table
stored in `lutCache`. -/
def TablesMonotone (fb : Fastbezier) : Prop :=
  ∀ e ∈ lutCache fb, ∀ a b : Nat, a ≤ b → b ≤ 65535 → fb.Eval e.2 a ≤ fb.Eval e.2 b

/-! ## Lemmas shared by the results below -/

theorem lutCache_get_empty (fb : Fastbezier) :
    (lutCache fb).get fb.nilLUT "" = fb.Make 0 0 0.58 1 18 := rfl

theorem lutCache_get_EaseOut (fb : Fastbezier) :
    (lutCache fb).get fb.nilLUT EaseOut = fb.Make 0 0 0.58 1 18 := rfl

theorem lutCache_get_EaseInOut (fb : Fastbezier) :
    (lutCache fb).get fb.nilLUT EaseInOut = fb.Make 0.42 0 0.58 1 18 := rfl

theorem Curve.Scale_EaseOut (fb : Fastbezier) (v : Nat) :
    Curve.Scale fb EaseOut v = fb.Eval (fb.Make 0 0 0.58 1 18) v := by
  have h : (EaseOut = Ease ∨ EaseOut = EaseIn ∨ EaseOut = EaseInOut ∨ EaseOut = EaseOut
      ∨ EaseOut = "") := by decide
  rw [Curve.Scale, if_pos h, lutCache_get_EaseOut]

theorem Curve.Scale_EaseInOut (fb : Fastbezier) (v : Nat) :
    Curve.Scale fb EaseInOut v = fb.Eval (fb.Make 0.42 0 0.58 1 18) v := by
  have h : (EaseInOut = Ease ∨ EaseInOut = EaseIn ∨ EaseInOut = EaseInOut
      ∨ EaseInOut = EaseOut ∨ EaseInOut = "") := by decide
  rw [Curve.Scale, if_pos h, lutCache_get_EaseInOut]

theorem Curve.Scale_empty (fb : Fastbezier) (v : Nat) :
    Curve.Scale fb "" v = fb.Eval (fb.Make 0 0 0.58 1 18) v := by
  have h : (("" : Curve) = Ease ∨ "" = EaseIn ∨ "" = EaseInOut ∨ "" = EaseOut
      ∨ ("" : Curve) = "") := by decide
  rw [Curve.Scale, if_pos h, lutCache_get_empty]

theorem Curve.Scale_unknown (fb : Fastbezier) (c : Curve) (v : Nat)
    (h1 : c ≠ Ease) (h2 : c ≠ EaseIn) (h3 : c ≠ EaseInOut) (h4 : c ≠ EaseOut) (h5 : c ≠ "")
    (h6 : c ≠ Direct) (h7 : c ≠ StepStart) (h8 : c ≠ StepMiddle) (h9 : c ≠ StepEnd) :
    Curve.Scale fb c v = fb.Eval (fb.Make 0 0 0.58 1 18) v := by
  have h : ¬ (c = Ease ∨ c = EaseIn ∨ c = EaseInOut ∨ c = EaseOut ∨ c = "") := by
    rintro (h | h | h | h | h) <;> contradiction
  rw [Curve.Scale, if_neg h, if_neg h6, if_neg h7, if_neg h8, if_neg h9, lutCache_get_empty]

theorem foldl_assign {α β : Type} (x : α) (l : List β) (s : α) (hl : l ≠ []) :
    l.foldl (fun _ _ => x) s = x := by
  induction l generalizing s with
  | nil => exact absurd rfl hl
  | cons a t ih =>
    cases t with
    | nil => rfl
    | cons b u => exact ih x (by simp)

/-- The integer branch of `UnmarshalJSON`: once the payload parses as an
`int32`, the call assigns `Const(c)` once per registered numeric variant and
then returns the error of line 53. -/
theorem SValue.UnmarshalJSON_int (pkg : Package) (reg : Registry) (s : SValue) (b : String)
    (c : Int) (h : pkg.jsonUnmarshalInt32 b = .ok c) :
    SValue.UnmarshalJSON pkg reg s b =
      ((reg.valuesTable Kind.Int).foldl (fun _ _ => SValue.mk (some (Const c))) s,
        some "unknown value") := by
  simp only [SValue.UnmarshalJSON, h]

/-- The structured branch of `UnmarshalJSON` leaves the container as it was
when the helper reports an error. -/
theorem SValue.UnmarshalJSON_dict_error (pkg : Package) (reg : Registry) (s : SValue)
    (b : String) (e1 e2 e3 : Error) (h1 : pkg.jsonUnmarshalInt32 b = .error e1)
    (h2 : pkg.jsonUnmarshalString b = .error e2)
    (h3 : pkg.jsonUnmarshalWithType b reg.valuesDictLookup = .error e3) :
    SValue.UnmarshalJSON pkg reg s b = (s, some e3) := by
  simp only [SValue.UnmarshalJSON, h1, h2, h3]

theorem Const_ne (a b : Int) (h : a ≠ b) : (some (Const a) : Option Value) ≠ some (Const b) := by
  intro he
  have h1 : Const a = Const b := Option.some.inj he
  have h2 : (Const a).Eval 0 0 = (Const b).Eval 0 0 := by rw [h1]
  exact h h2

/-! ## The serialised container (C1 to C3) -/

/-- C1 (fails on the code): the empty container encodes to the bytes `0`, and
decoding the bytes `0` returns the error "unknown value" whatever the target
container and the registry are, so the round trip of the empty container does
not succeed. -/
theorem roundtrip_empty_returns_error (pkg : Package) (reg : Registry) (s : SValue)
    (h0 : pkg.jsonUnmarshalInt32 "0" = .ok 0) :
    SValue.MarshalJSON pkg (SValue.mk none) = .ok "0" ∧
      (SValue.UnmarshalJSON pkg reg s "0").2 = some "unknown value" := by
  refine ⟨rfl, ?_⟩
  rw [SValue.UnmarshalJSON_int pkg reg s "0" 0 h0]

theorem roundtrip_empty_returns_error_witness :
    SValue.MarshalJSON litPackage (SValue.mk none) = .ok "0" ∧
      (SValue.UnmarshalJSON litPackage constRegistry (SValue.mk none) "0").2
        = some "unknown value" :=
  roundtrip_empty_returns_error litPackage constRegistry (SValue.mk none) rfl

/-- C2 (fails on the code): when the payload parses as an integer `n`, a
numeric variant is registered and the container does not already hold
`Const(n)`, `UnmarshalJSON` returns an error and the container has changed. -/
theorem failed_decode_overwrites (pkg : Package) (reg : Registry) (s : SValue) (b : String)
    (n : Int) (h : pkg.jsonUnmarshalInt32 b = .ok n) (hreg : reg.valuesTable Kind.Int ≠ [])
    (hs : s.Value ≠ some (Const n)) :
    (SValue.UnmarshalJSON pkg reg s b).2 ≠ none ∧
      (SValue.UnmarshalJSON pkg reg s b).1.Value = some (Const n) ∧
      (SValue.UnmarshalJSON pkg reg s b).1.Value ≠ s.Value := by
  rw [SValue.UnmarshalJSON_int pkg reg s b n h, foldl_assign _ _ _ hreg]
  exact ⟨by simp, rfl, fun he => hs he.symm⟩

theorem failed_decode_overwrites_witness :
    (SValue.UnmarshalJSON litPackage constRegistry (SValue.mk (some (Const 1))) "5").2 ≠ none ∧
      (SValue.UnmarshalJSON litPackage constRegistry (SValue.mk (some (Const 1))) "5").1.Value
        = some (Const 5) ∧
      (SValue.UnmarshalJSON litPackage constRegistry (SValue.mk (some (Const 1))) "5").1.Value
        ≠ (SValue.mk (some (Const 1))).Value :=
  failed_decode_overwrites litPackage constRegistry (SValue.mk (some (Const 1))) "5" 5 rfl
    (by decide) (Const_ne 1 5 (by decide))

/-- C3 (fails on the code): when the payload parses as a 32-bit integer `n`
and a numeric variant is registered, `UnmarshalJSON` does leave `Const(n)` in
the container, which then evaluates to `n` everywhere, but the call returns
the error "unknown value" instead of nil. -/
theorem decode_integer_sets_const_and_errors (pkg : Package) (reg : Registry) (s : SValue)
    (b : String) (n : Int) (h : pkg.jsonUnmarshalInt32 b = .ok n)
    (hreg : reg.valuesTable Kind.Int ≠ []) :
    (SValue.UnmarshalJSON pkg reg s b).1.Value = some (Const n) ∧
      (∀ t l, (SValue.UnmarshalJSON pkg reg s b).1.Eval t l = n) ∧
      (SValue.UnmarshalJSON pkg reg s b).2 = some "unknown value" := by
  rw [SValue.UnmarshalJSON_int pkg reg s b n h, foldl_assign _ _ _ hreg]
  exact ⟨rfl, fun _ _ => rfl, rfl⟩

theorem decode_integer_sets_const_and_errors_witness :
    (SValue.UnmarshalJSON litPackage constRegistry (SValue.mk none) "-12").1.Value
        = some (Const (-12)) ∧
      (∀ t l, (SValue.UnmarshalJSON litPackage constRegistry (SValue.mk none) "-12").1.Eval t l
        = -12) ∧
      (SValue.UnmarshalJSON litPackage constRegistry (SValue.mk none) "-12").2
        = some "unknown value" :=
  decode_integer_sets_const_and_errors litPackage constRegistry (SValue.mk none) "-12" (-12)
    rfl (by decide)

/-! ## Curves (C5, C6) -/

/-- C5: a curve tag that is none of the eight known tags (the empty tag is
one such) scales every intensity exactly as `EaseOut` does; the table read is
the ease-out table that `setupCache` built, so the lookup never misses. -/
theorem Curve_Scale_fallback (fb : Fastbezier) (c : Curve) (v : Nat)
    (hc : c ∉ [Ease, EaseIn, EaseInOut, EaseOut, Direct, StepStart, StepMiddle, StepEnd]) :
    Curve.Scale fb c v = Curve.Scale fb EaseOut v ∧
      Curve.Scale fb c v = fb.Eval (fb.Make 0 0 0.58 1 18) v := by
  simp only [List.mem_cons, List.mem_singleton, List.not_mem_nil, or_false, not_or] at hc
  obtain ⟨h1, h2, h3, h4, h6, h7, h8, h9⟩ := hc
  rw [Curve.Scale_EaseOut]
  by_cases h5 : c = ""
  · subst h5
    exact ⟨Curve.Scale_empty fb v, Curve.Scale_empty fb v⟩
  · exact ⟨Curve.Scale_unknown fb c v h1 h2 h3 h4 h5 h6 h7 h8 h9,
      Curve.Scale_unknown fb c v h1 h2 h3 h4 h5 h6 h7 h8 h9⟩

theorem Curve_Scale_fallback_witness :
    Curve.Scale rampTables "bleh" 32767 = Curve.Scale rampTables EaseOut 32767 ∧
      Curve.Scale rampTables "bleh" 32767
        = rampTables.Eval (rampTables.Make 0 0 0.58 1 18) 32767 :=
  Curve_Scale_fallback rampTables "bleh" 32767 (by decide)

/-- C6: `Direct` is the identity, `StepStart` is 0 below 256 and 65535 from
256 on, `StepMiddle` is 0 below 32768 and 65535 from 32768 on, `StepEnd` is
65535 from 65535-256 = 0xFEFF on and 0 below. -/
theorem Curve_Scale_closed_form (fb : Fastbezier) (v : Nat) :
    Curve.Scale fb Direct v = v ∧
      Curve.Scale fb StepStart v = (if v < 256 then 0 else 65535) ∧
      Curve.Scale fb StepMiddle v = (if v < 32768 then 0 else 65535) ∧
      Curve.Scale fb StepEnd v = (if 0xFEFF ≤ v then 65535 else 0) ∧
      65535 - 256 = 0xFEFF := by
  have hD : ¬ (Direct = Ease ∨ Direct = EaseIn ∨ Direct = EaseInOut ∨ Direct = EaseOut
      ∨ Direct = "") := by decide
  have hS : ¬ (StepStart = Ease ∨ StepStart = EaseIn ∨ StepStart = EaseInOut
      ∨ StepStart = EaseOut ∨ StepStart = "") := by decide
  have hM : ¬ (StepMiddle = Ease ∨ StepMiddle = EaseIn ∨ StepMiddle = EaseInOut
      ∨ StepMiddle = EaseOut ∨ StepMiddle = "") := by decide
  have hE : ¬ (StepEnd = Ease ∨ StepEnd = EaseIn ∨ StepEnd = EaseInOut
      ∨ StepEnd = EaseOut ∨ StepEnd = "") := by decide
  have hSD : StepStart ≠ Direct := by decide
  have hMD : StepMiddle ≠ Direct := by decide
  have hMS : StepMiddle ≠ StepStart := by decide
  have hED : StepEnd ≠ Direct := by decide
  have hES : StepEnd ≠ StepStart := by decide
  have hEM : StepEnd ≠ StepMiddle := by decide
  refine ⟨?_, ?_, ?_, ?_, rfl⟩
  · rw [Curve.Scale, if_neg hD, if_pos rfl]
  · rw [Curve.Scale, if_neg hS, if_neg hSD, if_pos rfl]
  · rw [Curve.Scale, if_neg hM, if_neg hMD, if_neg hMS, if_pos rfl]
  · rw [Curve.Scale, if_neg hE, if_neg hED, if_neg hES, if_neg hEM, if_pos rfl]

/-! ## Bell (C7, C8) -/

theorem Bell.Scale_low (fb : Fastbezier) (v : Nat) (h0 : 0 < v) (h1 : v < 32767) :
    Bell.Scale fb v = Curve.Scale fb EaseInOut (v * 2) := by
  have e : v * 2 % 65536 = v * 2 := by omega
  rw [Bell.Scale, if_neg (by omega), if_neg (by omega), if_neg (by omega), if_pos h1, e]

theorem Bell.Scale_high (fb : Fastbezier) (v : Nat) (h0 : 32767 < v) (h1 : v < 65535) :
    Bell.Scale fb v = Curve.Scale fb EaseInOut (131071 - 2 * v) := by
  have e : (65535 + 65536 - v * 2 % 65536) % 65536 = 131071 - 2 * v := by omega
  rw [Bell.Scale, if_neg (by omega), if_neg (by omega), if_neg (by omega), if_neg (by omega), e]

/-- The table set `rampTables` gives every value that `TestBell_Scale`
expects. -/
theorem rampTables_TestBell_Scale :
    Bell.Scale rampTables 0 = 0 ∧ Bell.Scale rampTables 0x1000 = 2093 ∧
      Bell.Scale rampTables (65535 >>> 1) = 0xffff ∧ Bell.Scale rampTables 0xefff = 2093 ∧
      Bell.Scale rampTables 0xffff = 0 := by decide

/-- C7 (fails as stated): with ease-in-out tables that pass `TestBell_Scale`,
the mirrored inputs 16383 and 65535 - 16383 = 49152 get different values:
the first is the table at 32766, the second the table at 32767. -/
theorem Bell_Scale_not_symmetric :
    Bell.Scale rampTables 16383 = 32764 ∧ Bell.Scale rampTables (65535 - 16383) = 32766 ∧
      Bell.Scale rampTables 16383 ≠ Bell.Scale rampTables (65535 - 16383) := by decide

/-- C7 (amended): `Bell.Scale` agrees at 0 and 65535 (both 0); it is 65535 at
32767 and the ease-in-out value of 65535 at the mirror 32768; and for
`0 < v < 32767` it is the ease-in-out value at `2v`, while at the mirrored
input `65535 - v` it is the ease-in-out value at `2v+1`, so the two are equal
exactly when the ease-in-out table has the same value at `2v` and `2v+1`. -/
theorem Bell_Scale_mirror (fb : Fastbezier) (v : Nat) (h0 : 0 < v) (h1 : v < 32767) :
    Bell.Scale fb 0 = Bell.Scale fb (65535 - 0) ∧
      Bell.Scale fb 32767 = 65535 ∧
      Bell.Scale fb (65535 - 32767) = Curve.Scale fb EaseInOut 65535 ∧
      Bell.Scale fb v = Curve.Scale fb EaseInOut (2 * v) ∧
      Bell.Scale fb (65535 - v) = Curve.Scale fb EaseInOut (2 * v + 1) ∧
      (Bell.Scale fb v = Bell.Scale fb (65535 - v) ↔
        Curve.Scale fb EaseInOut (2 * v) = Curve.Scale fb EaseInOut (2 * v + 1)) := by
  have hl : Bell.Scale fb v = Curve.Scale fb EaseInOut (2 * v) := by
    rw [Bell.Scale_low fb v h0 h1, Nat.mul_comm]
  have hh : Bell.Scale fb (65535 - v) = Curve.Scale fb EaseInOut (2 * v + 1) := by
    rw [Bell.Scale_high fb (65535 - v) (by omega) (by omega)]
    congr 1
    omega
  refine ⟨rfl, rfl, rfl, hl, hh, ?_⟩
  rw [hl, hh]

theorem Bell_Scale_mirror_witness :
    Bell.Scale rampTables 0 = Bell.Scale rampTables (65535 - 0) ∧
      Bell.Scale rampTables 32767 = 65535 ∧
      Bell.Scale rampTables (65535 - 32767) = Curve.Scale rampTables EaseInOut 65535 ∧
      Bell.Scale rampTables 0x1000 = Curve.Scale rampTables EaseInOut (2 * 0x1000) ∧
      Bell.Scale rampTables (65535 - 0x1000) = Curve.Scale rampTables EaseInOut (2 * 0x1000 + 1) ∧
      (Bell.Scale rampTables 0x1000 = Bell.Scale rampTables (65535 - 0x1000) ↔
        Curve.Scale rampTables EaseInOut (2 * 0x1000)
          = Curve.Scale rampTables EaseInOut (2 * 0x1000 + 1)) :=
  Bell_Scale_mirror rampTables 0x1000 (by decide) (by decide)

/-- C8: `Bell.Scale` is 0 at 0 and at 65535 and 65535 at 32767; for
`0 < v < 32767` it is `EaseInOut.Scale(v*2)`, the product staying within 16
bits; for `32767 < v < 65535` it is `EaseInOut.Scale` at the 16-bit value of
`65535 - v*2`, which is `131071 - 2*v`. -/
theorem Bell_Scale_definition (fb : Fastbezier) :
    Bell.Scale fb 0 = 0 ∧ Bell.Scale fb 65535 = 0 ∧ Bell.Scale fb 32767 = 65535 ∧
      (∀ v, 0 < v → v < 32767 →
        v * 2 < 65536 ∧ Bell.Scale fb v = Curve.Scale fb EaseInOut (v * 2)) ∧
      (∀ v, 32767 < v → v < 65535 →
        (65535 + 65536 - v * 2 % 65536) % 65536 = 131071 - 2 * v ∧
        131071 - 2 * v < 65536 ∧
        Bell.Scale fb v = Curve.Scale fb EaseInOut (131071 - 2 * v)) := by
  refine ⟨rfl, rfl, rfl, ?_, ?_⟩
  · intro v h0 h1
    exact ⟨by omega, Bell.Scale_low fb v h0 h1⟩
  · intro v h0 h1
    exact ⟨by omega, by omega, Bell.Scale_high fb v h0 h1⟩

theorem Bell_Scale_definition_witness :
    Bell.Scale rampTables 0x1000 = Curve.Scale rampTables EaseInOut (0x1000 * 2) ∧
      Bell.Scale rampTables 0xefff = Curve.Scale rampTables EaseInOut (131071 - 2 * 0xefff) :=
  ⟨((Bell_Scale_definition rampTables).2.2.2.1 0x1000 (by decide) (by decide)).2,
    ((Bell_Scale_definition rampTables).2.2.2.2 0xefff (by decide) (by decide)).2.2⟩

/-! ## Interpolation (C9, C10) -/

/-- The nearest input index of an output index is inside the input frame. -/
theorem nearest_index_lt (li lo i : Nat) (hli : 0 < li) (hi : i < lo) :
    (i * li + li / 2) / lo < li := by
  have hlo : 0 < lo := by omega
  rw [Nat.div_lt_iff_lt_mul hlo]
  have h1 : (i + 1) * li ≤ lo * li := Nat.mul_le_mul_right li hi
  have h2 : (i + 1) * li = i * li + li := by ring
  have h3 : li * lo = lo * li := Nat.mul_comm li lo
  omega

/-- With `0 < li ≤ lo` the output position of an input index is strictly
increasing in the index. -/
theorem skip_position_strictMono (li lo a b : Nat) (hli : 0 < li) (hle : li ≤ lo)
    (hab : a < b) : (a * lo + lo / 2) / li < (b * lo + lo / 2) / li := by
  have h1 : (a + 1) * lo ≤ b * lo := Nat.mul_le_mul_right lo hab
  have h2 : (a + 1) * lo = a * lo + lo := by ring
  have h3 : a * lo + lo / 2 + li ≤ b * lo + lo / 2 := by omega
  have h4 : (a * lo + lo / 2 + li) / li ≤ (b * lo + lo / 2) / li := Nat.div_le_div_right h3
  rw [Nat.add_div_right _ hli] at h4
  omega

theorem nearestLoop_spec {Color : Type} (inF : Frame Color) (li lo : Nat)
    (hin : inF.length = li) (hli : 0 < li) :
    ∀ (n i : Nat) (out : Frame Color), out.length = lo → i + n = lo →
      ∃ res, nearestLoop inF li lo n i out = some res ∧ res.length = lo ∧
        (∀ k, i ≤ k → k < lo → res[k]? = inF[(k * li + li / 2) / lo]?) ∧
        (∀ k, k < i → res[k]? = out[k]?) := by
  intro n
  induction n with
  | zero =>
    intro i out hout hi
    exact ⟨out, rfl, hout, fun k h1 h2 => by omega, fun k _ => rfl⟩
  | succ n ih =>
    intro i out hout hi
    have hilo : i < lo := by omega
    have hx : (i * li + li / 2) / lo < inF.length := by
      rw [hin]; exact nearest_index_lt li lo i hli hilo
    obtain ⟨res, hres, hlen, hset, hkeep⟩ :=
      ih (i + 1) (out.set i (inF[(i * li + li / 2) / lo])) (by simp [hout]) (by omega)
    refine ⟨res, ?_, hlen, ?_, ?_⟩
    · have hst : i < out.length := by omega
      simp only [nearestLoop, List.getElem?_eq_getElem hx, Option.some_bind, Frame.store,
        if_pos hst]
      exact hres
    · intro k hik hk
      by_cases hki : k = i
      · subst hki
        rw [hkeep k (by omega), List.getElem?_set_self (by omega), List.getElem?_eq_getElem hx]
      · exact hset k (by omega) hk
    · intro k hk
      rw [hkeep k (by omega), List.getElem?_set_ne (by omega)]

theorem skipLoop_spec {Color : Type} (li lo : Nat) (hli : 0 < li) (hlt : li < lo) :
    ∀ (rest : List Color) (i : Nat) (out : Frame Color), out.length = lo →
      i + rest.length = li →
      ∃ res, skipLoop li lo i rest out = some res ∧ res.length = lo ∧
        (∀ j, j < rest.length → res[((i + j) * lo + lo / 2) / li]? = rest[j]?) ∧
        (∀ k, (∀ j, j < rest.length → ((i + j) * lo + lo / 2) / li ≠ k) →
          res[k]? = out[k]?) := by
  intro rest
  induction rest with
  | nil =>
    intro i out hout _
    exact ⟨out, rfl, hout, fun j hj => by simp at hj, fun k _ => rfl⟩
  | cons p rest ih =>
    intro i out hout hi
    simp only [List.length_cons] at hi
    have hpos : (i * lo + lo / 2) / li < lo := by
      have := nearest_index_lt lo li i (by omega) (by omega)
      exact this
    obtain ⟨res, hres, hlen, hput, hkeep⟩ :=
      ih (i + 1) (out.set ((i * lo + lo / 2) / li) p) (by simp [hout]) (by omega)
    refine ⟨res, ?_, hlen, ?_, ?_⟩
    · have hst : (i * lo + lo / 2) / li < out.length := by omega
      simp only [skipLoop, Frame.store, if_pos hst, Option.some_bind]
      exact hres
    · intro j hj
      cases j with
      | zero =>
        have hne : ∀ j, j < rest.length →
            ((i + 1 + j) * lo + lo / 2) / li ≠ (i * lo + lo / 2) / li := by
          intro j _
          have := skip_position_strictMono li lo i (i + 1 + j) hli (by omega) (by omega)
          omega
        rw [Nat.add_zero, hkeep _ hne, List.getElem?_set_self (by omega)]
        simp
      | succ j =>
        simp only [List.length_cons] at hj
        have := hput j (by omega)
        rw [show i + (j + 1) = i + 1 + j by omega]
        simpa using this
    · intro k hk
      have h0 := hk 0 (by simp)
      rw [Nat.add_zero] at h0
      have hne : ∀ j, j < rest.length → ((i + 1 + j) * lo + lo / 2) / li ≠ k := by
        intro j hj
        have := hk (j + 1) (by simpa using hj)
        rwa [show i + (j + 1) = i + 1 + j by omega] at this
      rw [hkeep k hne, List.getElem?_set_ne h0]

/-- C9: for non-empty frames and a tag other than `nearestskip` and `linear`
(that is `nearest`, the empty tag or an unrecognised tag), `Scale` returns
without a panic, the output keeps its length, and every output index `i`
holds the input sample of index `(i*li + li/2) / lo`, which is inside the
input frame. -/
theorem Interpolation_Scale_nearest {Color : Type} (Mix : Color → Color → Nat → Color)
    (tag : Interpolation) (inF out : Frame Color) (hli : 0 < inF.length)
    (hlo : 0 < out.length) (h1 : tag ≠ NearestSkip) (h2 : tag ≠ Linear) :
    ∃ res, Interpolation.Scale Mix tag inF out = some res ∧ res.length = out.length ∧
      ∀ i, i < out.length →
        (i * inF.length + inF.length / 2) / out.length < inF.length ∧
        res[i]? = inF[(i * inF.length + inF.length / 2) / out.length]? := by
  obtain ⟨res, hres, hlen, hset, _⟩ :=
    nearestLoop_spec inF inF.length out.length rfl hli out.length 0 out rfl (by omega)
  refine ⟨res, ?_, hlen, ?_⟩
  · have h0 : ¬ (inF.length = 0 ∨ out.length = 0) := by omega
    simp only [Interpolation.Scale, if_neg h0, if_neg h1, if_neg h2]
    exact hres
  · intro i hi
    exact ⟨nearest_index_lt inF.length out.length i hli hi, hset i (Nat.zero_le i) hi⟩

theorem Interpolation_Scale_nearest_witness :
    ∃ res, Interpolation.Scale (fun c _ _ => c) "" [10, 20, 30] [0, 0, 0, 0, 0] = some res ∧
      res.length = [0, 0, 0, 0, 0].length ∧
      ∀ i, i < [0, 0, 0, 0, 0].length →
        (i * [10, 20, 30].length + [10, 20, 30].length / 2) / [0, 0, 0, 0, 0].length
          < [10, 20, 30].length ∧
        res[i]? = [10, 20, 30][(i * [10, 20, 30].length + [10, 20, 30].length / 2)
          / [0, 0, 0, 0, 0].length]? :=
  Interpolation_Scale_nearest (fun c _ _ => c) "" [10, 20, 30] [0, 0, 0, 0, 0]
    (by decide) (by decide) (by decide) (by decide)

/-- C10: for `0 < li < lo`, `NearestSkip.Scale` returns without a panic, the
output keeps its length, every input index `idx` has its sample at output
position `(idx*lo + lo/2) / li`, and every output position that is no such
position holds what it held before the call. -/
theorem Interpolation_Scale_nearestskip_upscale {Color : Type}
    (Mix : Color → Color → Nat → Color) (inF out : Frame Color) (hli : 0 < inF.length)
    (hlt : inF.length < out.length) :
    ∃ res, Interpolation.Scale Mix NearestSkip inF out = some res ∧
      res.length = out.length ∧
      (∀ idx, idx < inF.length →
        res[(idx * out.length + out.length / 2) / inF.length]? = inF[idx]?) ∧
      (∀ k, k < out.length →
        (∀ idx, idx < inF.length → (idx * out.length + out.length / 2) / inF.length ≠ k) →
        res[k]? = out[k]?) := by
  obtain ⟨res, hres, hlen, hput, hkeep⟩ :=
    skipLoop_spec inF.length out.length hli hlt inF 0 out rfl (by omega)
  refine ⟨res, ?_, hlen, ?_, ?_⟩
  · have h0 : ¬ (inF.length = 0 ∨ out.length = 0) := by omega
    simp only [Interpolation.Scale, if_neg h0, if_pos rfl, if_pos hlt]
    exact hres
  · intro idx hidx
    have := hput idx hidx
    rwa [Nat.zero_add] at this
  · intro k _ hk
    apply hkeep k
    intro j hj
    rw [Nat.zero_add]
    exact hk j hj

theorem Interpolation_Scale_nearestskip_upscale_witness :
    ∃ res, Interpolation.Scale (fun c _ _ => c) NearestSkip [10, 20, 30]
        [1, 2, 3, 4, 5, 6, 7] = some res ∧
      res.length = [1, 2, 3, 4, 5, 6, 7].length ∧
      (∀ idx, idx < [10, 20, 30].length →
        res[(idx * [1, 2, 3, 4, 5, 6, 7].length + [1, 2, 3, 4, 5, 6, 7].length / 2)
          / [10, 20, 30].length]? = [10, 20, 30][idx]?) ∧
      (∀ k, k < [1, 2, 3, 4, 5, 6, 7].length →
        (∀ idx, idx < [10, 20, 30].length →
          (idx * [1, 2, 3, 4, 5, 6, 7].length + [1, 2, 3, 4, 5, 6, 7].length / 2)
            / [10, 20, 30].length ≠ k) →
        res[k]? = [1, 2, 3, 4, 5, 6, 7][k]?) :=
  Interpolation_Scale_nearestskip_upscale (fun c _ _ => c) [10, 20, 30]
    [1, 2, 3, 4, 5, 6, 7] (by decide) (by decide)

/-! ## The definitions on the inputs of the tests -/

theorem Interpolation_Scale_examples :
    Interpolation.Scale (fun c _ _ => c) Nearest [10, 20, 30] [0, 0, 0, 0, 0]
        = some [10, 10, 20, 30, 30] ∧
      Interpolation.Scale (fun c _ _ => c) NearestSkip [10, 20, 30] [1, 2, 3, 4, 5, 6, 7]
        = some [1, 10, 3, 20, 5, 30, 7] ∧
      Interpolation.Scale (fun c _ _ => c) "" [10, 20, 30] [0, 0, 0, 0, 0]
        = some [10, 10, 20, 30, 30] := by decide

theorem TestCurve_Scale_steps :
    Curve.Scale rampTables StepStart 255 = 0 ∧ Curve.Scale rampTables StepStart 256 = 0xffff ∧
      Curve.Scale rampTables StepMiddle 0x7fff = 0 ∧
      Curve.Scale rampTables StepMiddle 0x8000 = 0xffff ∧
      Curve.Scale rampTables StepEnd 0xfefe = 0 ∧
      Curve.Scale rampTables StepEnd 0xfeff = 0xffff ∧
      Curve.Scale rampTables Direct (65535 >>> 1) = 65535 >>> 1 := by decide

theorem TestSValue_Eval : (SValue.mk none).Eval 23 0 = 0 ∧ (Const 2).Eval 23 0 = 2 := by
  exact ⟨rfl, rfl⟩

theorem parseInt32_examples :
    parseInt32 "0" = .ok 0 ∧ parseInt32 "-12" = .ok (-12) ∧
      parseInt32 "2147483648" = .error "out of range" ∧
      parseInt32 "x" = .error "not an integer" :=
  ⟨rfl, rfl, rfl, rfl⟩

/-! ## Interpolation, continued (C11, C13, C18) -/

/-- C11: when the output is not longer than the input (`li ≥ lo > 0`),
`NearestSkip.Scale` gives exactly the output frame of `Nearest.Scale`, and
the call returns a frame of the length of `out`. -/
theorem NearestSkip_downscale_eq_Nearest {Color : Type} (Mix : Color → Color → Nat → Color)
    (inF out : Frame Color) (hlo : 0 < out.length) (hle : out.length ≤ inF.length) :
    Interpolation.Scale Mix NearestSkip inF out = Interpolation.Scale Mix Nearest inF out ∧
      ∃ res, Interpolation.Scale Mix NearestSkip inF out = some res ∧
        res.length = out.length := by
  have h0 : ¬ (inF.length = 0 ∨ out.length = 0) := by omega
  have hlt : ¬ inF.length < out.length := by omega
  have hN1 : Nearest ≠ NearestSkip := by decide
  have hN2 : Nearest ≠ Linear := by decide
  have e1 : Interpolation.Scale Mix NearestSkip inF out
      = nearestLoop inF inF.length out.length out.length 0 out := by
    simp only [Interpolation.Scale, if_neg h0, if_neg hlt, if_true]
  have e2 : Interpolation.Scale Mix Nearest inF out
      = nearestLoop inF inF.length out.length out.length 0 out := by
    simp only [Interpolation.Scale, if_neg h0, if_neg hN1, if_neg hN2]
  obtain ⟨res, hres, hlen, _, _⟩ :=
    nearestLoop_spec inF inF.length out.length rfl (by omega) out.length 0 out rfl (by omega)
  exact ⟨e1.trans e2.symm, res, e1.trans hres, hlen⟩

theorem NearestSkip_downscale_eq_Nearest_witness :
    Interpolation.Scale (fun c _ _ => c) NearestSkip [10, 20, 30, 40, 50] [1, 2, 3]
        = Interpolation.Scale (fun c _ _ => c) Nearest [10, 20, 30, 40, 50] [1, 2, 3] ∧
      ∃ res, Interpolation.Scale (fun c _ _ => c) NearestSkip [10, 20, 30, 40, 50] [1, 2, 3]
          = some res ∧ res.length = [1, 2, 3].length :=
  NearestSkip_downscale_eq_Nearest (fun c _ _ => c) [10, 20, 30, 40, 50] [1, 2, 3]
    (by decide) (by decide)

/-- C13: for every tag, when the input frame or the output frame is empty,
`Scale` returns at once with the output frame exactly as it was. -/
theorem Interpolation_Scale_zero_length {Color : Type} (Mix : Color → Color → Nat → Color)
    (tag : Interpolation) (inF out : Frame Color)
    (h : inF.length = 0 ∨ out.length = 0) :
    Interpolation.Scale Mix tag inF out = some out := by
  simp only [Interpolation.Scale, if_pos h]

theorem Interpolation_Scale_zero_length_witness :
    Interpolation.Scale (fun c d _ => (c + d) / 2) Linear ([] : Frame Nat) [1, 2, 3]
      = some [1, 2, 3] :=
  Interpolation_Scale_zero_length (fun c d _ => (c + d) / 2) Linear [] [1, 2, 3]
    (Or.inl rfl)

/-- C18 (fails on the code): with a `Mix` that averages two samples, the empty
tag gives the nearest samples `[10, 10, 20, 30, 30]` where `Linear`, which the
comment on the constant calls the default, gives the blended
`[15, 15, 25, 30, 30]`. -/
theorem empty_tag_is_not_Linear :
    Interpolation.Scale (fun c d _ => (c + d) / 2) "" [10, 20, 30] [0, 0, 0, 0, 0]
        = some [10, 10, 20, 30, 30] ∧
      Interpolation.Scale (fun c d _ => (c + d) / 2) Linear [10, 20, 30] [0, 0, 0, 0, 0]
        = some [15, 15, 25, 30, 30] ∧
      Interpolation.Scale (fun c d _ => (c + d) / 2) "" [10, 20, 30] [0, 0, 0, 0, 0]
        ≠ Interpolation.Scale (fun c d _ => (c + d) / 2) Linear [10, 20, 30] [0, 0, 0, 0, 0] := by
  decide

/-- What `case Nearest, "":` does: the empty tag takes the loop of `Nearest`
for every input and output frame. -/
theorem empty_tag_scales_as_Nearest {Color : Type} (Mix : Color → Color → Nat → Color)
    (inF out : Frame Color) :
    Interpolation.Scale Mix "" inF out = Interpolation.Scale Mix Nearest inF out := by
  have hE1 : ("" : Interpolation) ≠ NearestSkip := by decide
  have hE2 : ("" : Interpolation) ≠ Linear := by decide
  have hN1 : Nearest ≠ NearestSkip := by decide
  have hN2 : Nearest ≠ Linear := by decide
  simp only [Interpolation.Scale, if_neg hE1, if_neg hE2, if_neg hN1, if_neg hN2]

/-! ## The empty container (C15) -/

/-- C15: a container holding no value evaluates to 0 at every time and
length, as `Const(0)` does, and `MarshalJSON` returns the bytes `0` and no
error. -/
theorem empty_container_is_Const_zero (pkg : Package) (timeMS : Nat) (l : Int) :
    (SValue.mk none).Eval timeMS l = 0 ∧
      (SValue.mk none).Eval timeMS l = (Const 0).Eval timeMS l ∧
      SValue.MarshalJSON pkg (SValue.mk none) = .ok "0" :=
  ⟨rfl, rfl, rfl⟩

/-! ## Curves, continued (C14, C17) -/

theorem lutCache_eq (fb : Fastbezier) :
    lutCache fb =
      [ ("", fb.Make 0 0 0.58 1 18), (Ease, fb.Make 0.25 0.1 0.25 1 18),
        (EaseIn, fb.Make 0.42 0 1 1 18), (EaseInOut, fb.Make 0.42 0 0.58 1 18),
        (EaseOut, fb.Make 0 0 0.58 1 18) ] := rfl

theorem Curve.Scale_Ease (fb : Fastbezier) (v : Nat) :
    Curve.Scale fb Ease v = fb.Eval (fb.Make 0.25 0.1 0.25 1 18) v := by
  have h : (Ease = Ease ∨ Ease = EaseIn ∨ Ease = EaseInOut ∨ Ease = EaseOut
      ∨ Ease = "") := by decide
  have e : (lutCache fb).get fb.nilLUT Ease = fb.Make 0.25 0.1 0.25 1 18 := rfl
  rw [Curve.Scale, if_pos h, e]

theorem Curve.Scale_EaseIn (fb : Fastbezier) (v : Nat) :
    Curve.Scale fb EaseIn v = fb.Eval (fb.Make 0.42 0 1 1 18) v := by
  have h : (EaseIn = Ease ∨ EaseIn = EaseIn ∨ EaseIn = EaseInOut ∨ EaseIn = EaseOut
      ∨ EaseIn = "") := by decide
  have e : (lutCache fb).get fb.nilLUT EaseIn = fb.Make 0.42 0 1 1 18 := rfl
  rw [Curve.Scale, if_pos h, e]

/-- Every tag either reads one table of `lutCache` at every intensity, or is
one of the four closed-form curves. -/
theorem Curve.Scale_cases (fb : Fastbezier) (c : Curve) :
    (∃ e ∈ lutCache fb, ∀ v, Curve.Scale fb c v = fb.Eval e.2 v) ∨
      c = Direct ∨ c = StepStart ∨ c = StepMiddle ∨ c = StepEnd := by
  by_cases h6 : c = Direct
  · exact Or.inr (Or.inl h6)
  by_cases h7 : c = StepStart
  · exact Or.inr (Or.inr (Or.inl h7))
  by_cases h8 : c = StepMiddle
  · exact Or.inr (Or.inr (Or.inr (Or.inl h8)))
  by_cases h9 : c = StepEnd
  · exact Or.inr (Or.inr (Or.inr (Or.inr h9)))
  left
  rw [lutCache_eq]
  by_cases h1 : c = Ease
  · subst h1
    exact ⟨(Ease, fb.Make 0.25 0.1 0.25 1 18), by simp, Curve.Scale_Ease fb⟩
  by_cases h2 : c = EaseIn
  · subst h2
    exact ⟨(EaseIn, fb.Make 0.42 0 1 1 18), by simp, Curve.Scale_EaseIn fb⟩
  by_cases h3 : c = EaseInOut
  · subst h3
    exact ⟨(EaseInOut, fb.Make 0.42 0 0.58 1 18), by simp, Curve.Scale_EaseInOut fb⟩
  by_cases h4 : c = EaseOut
  · subst h4
    exact ⟨(EaseOut, fb.Make 0 0 0.58 1 18), by simp, Curve.Scale_EaseOut fb⟩
  by_cases h5 : c = ""
  · subst h5
    exact ⟨("", fb.Make 0 0 0.58 1 18), by simp, Curve.Scale_empty fb⟩
  · exact ⟨("", fb.Make 0 0 0.58 1 18), by simp,
      fun v => Curve.Scale_unknown fb c v h1 h2 h3 h4 h5 h6 h7 h8 h9⟩

theorem Curve.Scale_Direct (fb : Fastbezier) (v : Nat) : Curve.Scale fb Direct v = v := by
  have hD : ¬ (Direct = Ease ∨ Direct = EaseIn ∨ Direct = EaseInOut ∨ Direct = EaseOut
      ∨ Direct = "") := by decide
  rw [Curve.Scale, if_neg hD, if_pos rfl]

theorem Curve.Scale_StepStart (fb : Fastbezier) (v : Nat) :
    Curve.Scale fb StepStart v = if v < 256 then 0 else 65535 := by
  have hS : ¬ (StepStart = Ease ∨ StepStart = EaseIn ∨ StepStart = EaseInOut
      ∨ StepStart = EaseOut ∨ StepStart = "") := by decide
  have hSD : StepStart ≠ Direct := by decide
  rw [Curve.Scale, if_neg hS, if_neg hSD, if_pos rfl]

theorem Curve.Scale_StepMiddle (fb : Fastbezier) (v : Nat) :
    Curve.Scale fb StepMiddle v = if v < 32768 then 0 else 65535 := by
  have hM : ¬ (StepMiddle = Ease ∨ StepMiddle = EaseIn ∨ StepMiddle = EaseInOut
      ∨ StepMiddle = EaseOut ∨ StepMiddle = "") := by decide
  have hMD : StepMiddle ≠ Direct := by decide
  have hMS : StepMiddle ≠ StepStart := by decide
  rw [Curve.Scale, if_neg hM, if_neg hMD, if_neg hMS, if_pos rfl]

theorem Curve.Scale_StepEnd (fb : Fastbezier) (v : Nat) :
    Curve.Scale fb StepEnd v = if 65279 ≤ v then 65535 else 0 := by
  have hE : ¬ (StepEnd = Ease ∨ StepEnd = EaseIn ∨ StepEnd = EaseInOut
      ∨ StepEnd = EaseOut ∨ StepEnd = "") := by decide
  have hED : StepEnd ≠ Direct := by decide
  have hES : StepEnd ≠ StepStart := by decide
  have hEM : StepEnd ≠ StepMiddle := by decide
  rw [Curve.Scale, if_neg hE, if_neg hED, if_neg hES, if_neg hEM, if_pos rfl]

/-- The result of `Curve.Scale` on a `uint16` is a `uint16`. -/
theorem Curve.Scale_le (fb : Fastbezier) (c : Curve) (v : Nat) (hv : v ≤ 65535) :
    Curve.Scale fb c v ≤ 65535 := by
  rcases Curve.Scale_cases fb c with ⟨e, _, he⟩ | h | h | h | h
  · rw [he]; exact fb.Eval_le _ _
  · rw [h, Curve.Scale_Direct]; exact hv
  · rw [h, Curve.Scale_StepStart]; split_ifs <;> omega
  · rw [h, Curve.Scale_StepMiddle]; split_ifs <;> omega
  · rw [h, Curve.Scale_StepEnd]; split_ifs <;> omega

theorem rampTables_monotone : TablesMonotone rampTables := by
  intro e _ a b hab hb
  simp only [rampTables]
  split_ifs <;> omega

/-- C14: for every tag and every 16-bit intensity, `Scale8` is `Scale`
shifted right by 8 bits, and the shifted value fits in 8 bits, so the
conversion to `uint8` drops nothing. -/
theorem Curve_Scale8_high_byte (fb : Fastbezier) (c : Curve) (v : Nat) (hv : v < 65536) :
    Curve.Scale8 fb c v = Curve.Scale fb c v >>> 8 ∧ Curve.Scale fb c v >>> 8 ≤ 255 := by
  have h := Curve.Scale_le fb c v (by omega)
  have e : Curve.Scale fb c v >>> 8 = Curve.Scale fb c v / 256 := by
    rw [Nat.shiftRight_eq_div_pow]
  rw [Curve.Scale8, e]
  omega

theorem Curve_Scale8_high_byte_witness :
    Curve.Scale8 rampTables "bleh" 32767 = Curve.Scale rampTables "bleh" 32767 >>> 8 ∧
      Curve.Scale rampTables "bleh" 32767 >>> 8 ≤ 255 :=
  Curve_Scale8_high_byte rampTables "bleh" 32767 (by decide)

/-- C17: for all 16-bit `v1 ≤ v2`, `Scale(v1) ≤ Scale(v2)` for every tag when
each table of `lutCache` is non-decreasing, and with no assumption on the
tables for `direct` and the three stepped curves. -/
theorem Curve_Scale_monotone (fb : Fastbezier) (c : Curve) (v1 v2 : Nat) (h12 : v1 ≤ v2)
    (h2 : v2 ≤ 65535)
    (hT : TablesMonotone fb ∨ c ∈ [Direct, StepStart, StepMiddle, StepEnd]) :
    Curve.Scale fb c v1 ≤ Curve.Scale fb c v2 := by
  rcases Curve.Scale_cases fb c with ⟨e, hmem, he⟩ | h | h | h | h
  · rcases hT with hT | hc
    · rw [he, he]
      exact hT e hmem v1 v2 h12 h2
    · simp only [List.mem_cons, List.mem_singleton, List.not_mem_nil, or_false] at hc
      rcases hc with h | h | h | h
      · rw [h, Curve.Scale_Direct, Curve.Scale_Direct]; exact h12
      · rw [h, Curve.Scale_StepStart, Curve.Scale_StepStart]; split_ifs <;> omega
      · rw [h, Curve.Scale_StepMiddle, Curve.Scale_StepMiddle]; split_ifs <;> omega
      · rw [h, Curve.Scale_StepEnd, Curve.Scale_StepEnd]; split_ifs <;> omega
  · rw [h, Curve.Scale_Direct, Curve.Scale_Direct]; exact h12
  · rw [h, Curve.Scale_StepStart, Curve.Scale_StepStart]; split_ifs <;> omega
  · rw [h, Curve.Scale_StepMiddle, Curve.Scale_StepMiddle]; split_ifs <;> omega
  · rw [h, Curve.Scale_StepEnd, Curve.Scale_StepEnd]; split_ifs <;> omega

theorem Curve_Scale_monotone_witness :
    Curve.Scale rampTables "bleh" 8193 ≤ Curve.Scale rampTables "bleh" 32767 ∧
      Curve.Scale rampTables StepEnd 0xfefe ≤ Curve.Scale rampTables StepEnd 0xfeff :=
  ⟨Curve_Scale_monotone rampTables "bleh" 8193 32767 (by decide) (by decide)
      (Or.inl rampTables_monotone),
    Curve_Scale_monotone rampTables StepEnd 0xfefe 0xfeff (by decide) (by decide)
      (Or.inr (by decide))⟩

/-! ## Registration (C16) -/

/-- C16 (fails on the code): a value that does not implement `JsonEncoding`
gets the error, returned before any write, with both tables as they were; but
a value that implements it never gets a nil error: on the package variables
as declared the write of line 21 panics, and with initialised maps the body
ends without a `return`. -/
theorem RegisterValue_success_path_never_returns (u : Unbound) (vars : Tables)
    (v : Registrant) :
    (v.jsonEncoding = none →
      RegisterValue u vars v
        = Outcome.returned vars (some "implementing JsonEncoding is required")) ∧
      (∀ ty, v.jsonEncoding = some ty →
        (∀ vars1, RegisterValue u vars v ≠ Outcome.returned vars1 none) ∧
        (vars.valuesTable = none → RegisterValue u vars v = Outcome.panicked) ∧
        RegisterValue u declaredTables v = Outcome.panicked) := by
  refine ⟨fun h => by simp only [RegisterValue, h], fun ty h => ⟨?_, ?_, ?_⟩⟩
  · intro vars1
    simp only [RegisterValue, h]
    cases vars.valuesTable with
    | none => simp
    | some table =>
      cases vars.valuesDictLookup with
      | none => by_cases hd : ty = Kind.Dict <;> simp [hd]
      | some dict => by_cases hd : ty = Kind.Dict <;> simp [hd]
  · intro hn
    simp only [RegisterValue, h, hn]
  · simp only [RegisterValue, h, declaredTables]

theorem RegisterValue_success_path_never_returns_witness :
    (∀ vars1, RegisterValue (Unbound.mk "Const" ["Const"]) declaredTables
        (Registrant.mk (Const 1) (some Kind.Int)) ≠ Outcome.returned vars1 none) ∧
      (declaredTables.valuesTable = none →
        RegisterValue (Unbound.mk "Const" ["Const"]) declaredTables
          (Registrant.mk (Const 1) (some Kind.Int)) = Outcome.panicked) ∧
      RegisterValue (Unbound.mk "Const" ["Const"]) declaredTables
        (Registrant.mk (Const 1) (some Kind.Int)) = Outcome.panicked :=
  (RegisterValue_success_path_never_returns (Unbound.mk "Const" ["Const"]) declaredTables
    (Registrant.mk (Const 1) (some Kind.Int))).2 Kind.Int rfl

/-- The third way the call can end: with both maps initialised, a value of
numeric kind, and the values `"Const"` and `["Const"]` for the two unbound
expressions, the tables are written and the end of the body is reached. -/
theorem RegisterValue_example :
    RegisterValue (Unbound.mk "Const" ["Const"]) (Tables.mk (some []) (some fun _ => []))
        (Registrant.mk (Const 1) (some Kind.Int))
      = Outcome.noReturn (Tables.mk (some [])
          (some fun k => if k = Kind.Int then ["Const"] else [])) ∧
      RegisterValue (Unbound.mk "Const" ["Const"]) declaredTables
          (Registrant.mk (Const 1) none)
        = Outcome.returned declaredTables (some "implementing JsonEncoding is required") :=
  ⟨rfl, rfl⟩

/-! ## Linear resampling and index safety (C12, C19, C20) -/

/-- The sample that one iteration of the `Linear` loop stores: it exists, it
is the blend of `in[x]` and `in[x+1]` when `x < li-1`, and `in[x]` itself
otherwise. -/
theorem linear_sample {Color : Type} (Mix : Color → Color → Nat → Color)
    (inF : Frame Color) (li x : Nat) (hin : inF.length = li) (hx : x < li) :
    ∃ c c1, inF[x]? = some c ∧
      (if x < li - 1 then (inF[x + 1]?).map fun d => Mix c d 127 else some c) = some c1 ∧
      (x < li - 1 → ∃ d, inF[x + 1]? = some d ∧ c1 = Mix c d 127) ∧
      (¬ x < li - 1 → c1 = c) := by
  have hx0 : x < inF.length := by omega
  by_cases hb : x < li - 1
  · have hx1 : x + 1 < inF.length := by omega
    refine ⟨inF[x], Mix inF[x] inF[x + 1] 127, List.getElem?_eq_getElem hx0, ?_, ?_, ?_⟩
    · rw [if_pos hb, List.getElem?_eq_getElem hx1]; rfl
    · intro _
      exact ⟨inF[x + 1], List.getElem?_eq_getElem hx1, rfl⟩
    · intro h; exact absurd hb h
  · refine ⟨inF[x], inF[x], List.getElem?_eq_getElem hx0, ?_, ?_, ?_⟩
    · rw [if_neg hb]
    · intro h; exact absurd h hb
    · intro _; rfl

theorem linearLoop_spec {Color : Type} (Mix : Color → Color → Nat → Color)
    (inF : Frame Color) (li lo : Nat) (hin : inF.length = li) (hli : 0 < li) :
    ∀ (n i : Nat) (out : Frame Color), out.length = lo → i + n = lo →
      ∃ res, linearLoop Mix inF li lo n i out = some res ∧ res.length = lo ∧
        (∀ k, i ≤ k → k < lo →
          ((k * li + li / 2) / lo < li - 1 →
            ∃ c d, inF[(k * li + li / 2) / lo]? = some c ∧
              inF[(k * li + li / 2) / lo + 1]? = some d ∧ res[k]? = some (Mix c d 127)) ∧
          (¬ (k * li + li / 2) / lo < li - 1 → res[k]? = inF[(k * li + li / 2) / lo]?)) ∧
        (∀ k, k < i → res[k]? = out[k]?) := by
  intro n
  induction n with
  | zero =>
    intro i out hout hi
    exact ⟨out, rfl, hout, fun k h1 h2 => by omega, fun k _ => rfl⟩
  | succ n ih =>
    intro i out hout hi
    have hilo : i < lo := by omega
    have hx : (i * li + li / 2) / lo < li := nearest_index_lt li lo i hli hilo
    obtain ⟨c, c1, hc, hc1, hmix, hplain⟩ :=
      linear_sample Mix inF li ((i * li + li / 2) / lo) hin hx
    obtain ⟨res, hres, hlen, hset, hkeep⟩ :=
      ih (i + 1) (out.set i c1) (by simp [hout]) (by omega)
    have hst : i < out.length := by omega
    refine ⟨res, ?_, hlen, ?_, ?_⟩
    · simp only [linearLoop, hc, Option.some_bind, hc1, Frame.store, if_pos hst]
      exact hres
    · intro k hik hk
      by_cases hki : k = i
      · subst hki
        have hk1 : res[k]? = some c1 := by
          rw [hkeep k (by omega), List.getElem?_set_self hst]
        refine ⟨fun hb => ?_, fun hb => ?_⟩
        · obtain ⟨d, hd, he⟩ := hmix hb
          exact ⟨c, d, hc, hd, by rw [hk1, he]⟩
        · rw [hk1, hplain hb, hc]
      · exact hset k (by omega) hk
    · intro k hk
      rw [hkeep k (by omega), List.getElem?_set_ne (by omega)]

/-- A list whose samples are found in `res` at strictly increasing positions
is a sublist of `res`. -/
theorem sublist_of_positions {α : Type} (l res : List α) (f : Nat → Nat)
    (hmono : ∀ a b, a < b → b < l.length → f a < f b)
    (hget : ∀ i, i < l.length → res[f i]? = l[i]?) : l.Sublist res := by
  rw [List.sublist_iff_exists_fin_orderEmbedding_get_eq]
  have hlt : ∀ i, i < l.length → f i < res.length := by
    intro i hi
    have h := hget i hi
    rw [List.getElem?_eq_getElem hi] at h
    obtain ⟨h1, _⟩ := List.getElem?_eq_some.1 h
    exact h1
  refine ⟨OrderEmbedding.ofStrictMono
    (fun ix : Fin l.length => (⟨f ix.1, hlt ix.1 ix.2⟩ : Fin res.length)) ?_, ?_⟩
  · intro a b hab
    exact hmono a.1 b.1 hab b.2
  · intro ix
    have h := hget ix.1 ix.2
    rw [List.getElem?_eq_getElem ix.2, List.getElem?_eq_getElem (hlt ix.1 ix.2)] at h
    simp only [OrderEmbedding.coe_ofStrictMono, List.get_eq_getElem]
    exact (Option.some.inj h).symm

/-- C12: for non-empty frames `Linear.Scale` returns without a panic and
keeps the length of `out`; for every output index `i`, with
`x = (i*li + li/2) / lo`, the output holds `in[x]` after `Mix(in[x+1], 127)`
when `x < li-1`, and `in[x]` itself when `x = li-1`; `x` never exceeds `li-1`.
The samples are those of the input frame as it was before the call. -/
theorem Interpolation_Scale_linear {Color : Type} (Mix : Color → Color → Nat → Color)
    (inF out : Frame Color) (hli : 0 < inF.length) (hlo : 0 < out.length) :
    ∃ res, Interpolation.Scale Mix Linear inF out = some res ∧ res.length = out.length ∧
      ∀ i, i < out.length →
        (i * inF.length + inF.length / 2) / out.length ≤ inF.length - 1 ∧
        ((i * inF.length + inF.length / 2) / out.length < inF.length - 1 →
          ∃ c d, inF[(i * inF.length + inF.length / 2) / out.length]? = some c ∧
            inF[(i * inF.length + inF.length / 2) / out.length + 1]? = some d ∧
            res[i]? = some (Mix c d 127)) ∧
        ((i * inF.length + inF.length / 2) / out.length = inF.length - 1 →
          res[i]? = inF[(i * inF.length + inF.length / 2) / out.length]?) := by
  obtain ⟨res, hres, hlen, hset, _⟩ :=
    linearLoop_spec Mix inF inF.length out.length rfl hli out.length 0 out rfl (by omega)
  refine ⟨res, ?_, hlen, ?_⟩
  · have h0 : ¬ (inF.length = 0 ∨ out.length = 0) := by omega
    have hL : Linear ≠ NearestSkip := by decide
    simp only [Interpolation.Scale, if_neg h0, if_neg hL, if_true]
    exact hres
  · intro i hi
    have hx := nearest_index_lt inF.length out.length i hli hi
    obtain ⟨hmix, hplain⟩ := hset i (Nat.zero_le i) hi
    exact ⟨by omega, hmix, fun he => hplain (by omega)⟩

theorem Interpolation_Scale_linear_witness :
    ∃ res, Interpolation.Scale (fun c d _ => (c + d) / 2) Linear [10, 20, 30]
        [0, 0, 0, 0, 0] = some res ∧ res.length = [0, 0, 0, 0, 0].length ∧
      ∀ i, i < [0, 0, 0, 0, 0].length →
        (i * [10, 20, 30].length + [10, 20, 30].length / 2) / [0, 0, 0, 0, 0].length
          ≤ [10, 20, 30].length - 1 ∧
        ((i * [10, 20, 30].length + [10, 20, 30].length / 2) / [0, 0, 0, 0, 0].length
            < [10, 20, 30].length - 1 →
          ∃ c d, [10, 20, 30][(i * [10, 20, 30].length + [10, 20, 30].length / 2)
              / [0, 0, 0, 0, 0].length]? = some c ∧
            [10, 20, 30][(i * [10, 20, 30].length + [10, 20, 30].length / 2)
              / [0, 0, 0, 0, 0].length + 1]? = some d ∧
            res[i]? = some ((fun c d (_ : Nat) => (c + d) / 2) c d 127)) ∧
        ((i * [10, 20, 30].length + [10, 20, 30].length / 2) / [0, 0, 0, 0, 0].length
            = [10, 20, 30].length - 1 →
          res[i]? = [10, 20, 30][(i * [10, 20, 30].length + [10, 20, 30].length / 2)
            / [0, 0, 0, 0, 0].length]?) :=
  Interpolation_Scale_linear (fun c d _ => (c + d) / 2) [10, 20, 30] [0, 0, 0, 0, 0]
    (by decide) (by decide)

/-- C19: for non-empty frames and every tag, `Scale` returns without an
index out of range; the indices it uses are in range: `(i*li + li/2)/lo < li`
for every `i < lo`, `x+1 < li` whenever `x < li-1` (the read of `in[x+1]` by
`Linear`), and `(idx*lo + lo/2)/li < lo` for every `idx < li` when
`li < lo` (the write of `NearestSkip`). -/
theorem Interpolation_Scale_index_safe {Color : Type} (Mix : Color → Color → Nat → Color)
    (tag : Interpolation) (inF out : Frame Color) (hli : 0 < inF.length)
    (hlo : 0 < out.length) :
    (∃ res, Interpolation.Scale Mix tag inF out = some res ∧ res.length = out.length) ∧
      (∀ i, i < out.length →
        (i * inF.length + inF.length / 2) / out.length < inF.length) ∧
      (∀ x, x < inF.length - 1 → x + 1 < inF.length) ∧
      (inF.length < out.length → ∀ idx, idx < inF.length →
        (idx * out.length + out.length / 2) / inF.length < out.length) := by
  have h0 : ¬ (inF.length = 0 ∨ out.length = 0) := by omega
  refine ⟨?_, fun i hi => nearest_index_lt inF.length out.length i hli hi,
    fun x hx => by omega,
    fun _ idx hidx => nearest_index_lt out.length inF.length idx hlo hidx⟩
  obtain ⟨r1, hr1, hl1, _, _⟩ :=
    nearestLoop_spec inF inF.length out.length rfl hli out.length 0 out rfl (by omega)
  by_cases hS : tag = NearestSkip
  · subst hS
    by_cases hlt : inF.length < out.length
    · obtain ⟨r2, hr2, hl2, _, _⟩ :=
        skipLoop_spec inF.length out.length hli hlt inF 0 out rfl (by omega)
      refine ⟨r2, ?_, hl2⟩
      simp only [Interpolation.Scale, if_neg h0, if_pos hlt, if_true]
      exact hr2
    · refine ⟨r1, ?_, hl1⟩
      simp only [Interpolation.Scale, if_neg h0, if_neg hlt, if_true]
      exact hr1
  · by_cases hL : tag = Linear
    · subst hL
      obtain ⟨r3, hr3, hl3, _, _⟩ :=
        linearLoop_spec Mix inF inF.length out.length rfl hli out.length 0 out rfl (by omega)
      refine ⟨r3, ?_, hl3⟩
      simp only [Interpolation.Scale, if_neg h0, if_neg hS, if_true]
      exact hr3
    · refine ⟨r1, ?_, hl1⟩
      simp only [Interpolation.Scale, if_neg h0, if_neg hS, if_neg hL]
      exact hr1

theorem Interpolation_Scale_index_safe_witness :
    (∃ res, Interpolation.Scale (fun c d _ => (c + d) / 2) Linear [10, 20, 30]
        [0, 0, 0, 0, 0] = some res ∧ res.length = [0, 0, 0, 0, 0].length) ∧
      (∀ i, i < [0, 0, 0, 0, 0].length →
        (i * [10, 20, 30].length + [10, 20, 30].length / 2) / [0, 0, 0, 0, 0].length
          < [10, 20, 30].length) ∧
      (∀ x, x < [10, 20, 30].length - 1 → x + 1 < [10, 20, 30].length) ∧
      ([10, 20, 30].length < [0, 0, 0, 0, 0].length → ∀ idx, idx < [10, 20, 30].length →
        (idx * [0, 0, 0, 0, 0].length + [0, 0, 0, 0, 0].length / 2) / [10, 20, 30].length
          < [0, 0, 0, 0, 0].length) :=
  Interpolation_Scale_index_safe (fun c d _ => (c + d) / 2) Linear [10, 20, 30]
    [0, 0, 0, 0, 0] (by decide) (by decide)

/-- C20: for `0 < li < lo` the position `(idx*lo + lo/2)/li` is strictly
increasing in `idx`, hence different input indices have different positions;
`NearestSkip.Scale` returns a frame that holds every input sample at its
position, and the input frame is a sublist of it (all samples, in their
order). -/
theorem NearestSkip_upscale_keeps_all_samples {Color : Type}
    (Mix : Color → Color → Nat → Color) (inF out : Frame Color) (hli : 0 < inF.length)
    (hlt : inF.length < out.length) :
    (∀ a b, a < b → b < inF.length →
      (a * out.length + out.length / 2) / inF.length
        < (b * out.length + out.length / 2) / inF.length) ∧
      (∀ a b, a < inF.length → b < inF.length →
        (a * out.length + out.length / 2) / inF.length
          = (b * out.length + out.length / 2) / inF.length → a = b) ∧
      ∃ res, Interpolation.Scale Mix NearestSkip inF out = some res ∧
        (∀ idx, idx < inF.length →
          res[(idx * out.length + out.length / 2) / inF.length]? = inF[idx]?) ∧
        inF.Sublist res := by
  have hmono : ∀ a b, a < b → b < inF.length →
      (a * out.length + out.length / 2) / inF.length
        < (b * out.length + out.length / 2) / inF.length :=
    fun a b hab _ => skip_position_strictMono inF.length out.length a b hli (by omega) hab
  refine ⟨hmono, ?_, ?_⟩
  · intro a b ha hb he
    rcases Nat.lt_trichotomy a b with h | h | h
    · have := hmono a b h hb; omega
    · exact h
    · have := hmono b a h ha; omega
  · obtain ⟨res, hres, _, hput, _⟩ :=
      skipLoop_spec inF.length out.length hli hlt inF 0 out rfl (by omega)
    have hput2 : ∀ idx, idx < inF.length →
        res[(idx * out.length + out.length / 2) / inF.length]? = inF[idx]? := by
      intro idx hidx
      have := hput idx hidx
      rwa [Nat.zero_add] at this
    refine ⟨res, ?_, hput2, ?_⟩
    · have h0 : ¬ (inF.length = 0 ∨ out.length = 0) := by omega
      simp only [Interpolation.Scale, if_neg h0, if_pos hlt, if_true]
      exact hres
    · exact sublist_of_positions inF res
        (fun idx => (idx * out.length + out.length / 2) / inF.length) hmono hput2

theorem NearestSkip_upscale_keeps_all_samples_witness :
    (∀ a b, a < b → b < [10, 20, 30].length →
      (a * [1, 2, 3, 4, 5, 6, 7].length + [1, 2, 3, 4, 5, 6, 7].length / 2)
          / [10, 20, 30].length
        < (b * [1, 2, 3, 4, 5, 6, 7].length + [1, 2, 3, 4, 5, 6, 7].length / 2)
          / [10, 20, 30].length) ∧
      (∀ a b, a < [10, 20, 30].length → b < [10, 20, 30].length →
        (a * [1, 2, 3, 4, 5, 6, 7].length + [1, 2, 3, 4, 5, 6, 7].length / 2)
            / [10, 20, 30].length
          = (b * [1, 2, 3, 4, 5, 6, 7].length + [1, 2, 3, 4, 5, 6, 7].length / 2)
            / [10, 20, 30].length → a = b) ∧
      ∃ res, Interpolation.Scale (fun c _ _ => c) NearestSkip [10, 20, 30]
          [1, 2, 3, 4, 5, 6, 7] = some res ∧
        (∀ idx, idx < [10, 20, 30].length →
          res[(idx * [1, 2, 3, 4, 5, 6, 7].length + [1, 2, 3, 4, 5, 6, 7].length / 2)
            / [10, 20, 30].length]? = [10, 20, 30][idx]?) ∧
        [10, 20, 30].Sublist res :=
  NearestSkip_upscale_keeps_all_samples (fun c _ _ => c) [10, 20, 30]
    [1, 2, 3, 4, 5, 6, 7] (by decide) (by decide)

end Anim1d
